import Mathlib

/-!
# Playlist syncer: a shallow embedding of the synchronization engine

The development follows the Go sources:

* `spotify/client.go`: `ExtractPlaylistID`, `GetTrackIDs`, `AddTracksToPlaylist`;
* `monitor/monitor.go`: `NewMonitor`, `Initialize`, `scanPlaylist`, `scanAllPlaylists`, `Start`;
* `main.go`: the credential step of `main`.

The remote service is the environment.  Every answer it gives (the result of a
listing fetch, the success or failure of an append request) is an explicit
argument of the embedded function; every request the program sends to it is
recorded in the result.
-/

namespace PlaylistSyncer

/-! ## Data model -/

deriving instance DecidableEq for Except

/-- The type `spotify.ID`: a string. -/
abbrev ID := String

/-- The part of `spotify.PlaylistItem` the program reads: `item.Track.Track` is either
nil (`none`) or a track, of which only the `ID` is used. -/
structure PlaylistItem where
  track : Option ID

/-- The inner map `map[spotifyapi.ID]bool`: reading a missing key gives `false`. -/
abbrev TrackSet := ID → Bool

/-- The map `knownTracks : map[ID]map[ID]bool`: reading a missing key gives nil (`none`). -/
abbrev Registry := ID → Option TrackSet

/-- The part of `url.URL` that `ExtractPlaylistID` reads. -/
structure URL where
  Path : String

/-- The fields of `config.Config` read by the monitor. -/
structure Config where
  SubPlaylistURLs : List String
  MasterPlaylistURL : String

/-- The fields of `Monitor` that carry state (`config` and `spotify` are the
configuration and the remote client). -/
structure Monitor where
  masterID : ID
  subIDs : List ID
  knownTracks : Registry

/-! ## `spotify/client.go` -/

/-- Drop the leading `/` characters. -/
def trimLeftSlash (s : List Char) : List Char :=
  s.dropWhile (fun c => c == '/')

/-- The call `strings.Trim(s, "/")` on the characters of `s`. -/
def trimSlash (s : List Char) : List Char :=
  (trimLeftSlash (trimLeftSlash s).reverse).reverse

/-- The call `strings.Split(s, "/")` on the characters of `s`: the pieces between
the separators, `[""]` for the empty string. -/
def splitSlash : List Char → List (List Char)
  | [] => [[]]
  | c :: cs =>
    if c == '/' then [] :: splitSlash cs
    else
      match splitSlash cs with
      | [] => [[c]]
      | p :: ps => (c :: p) :: ps

/-- The segments `strings.Split(strings.Trim(path, "/"), "/")`. -/
def pathSegments (path : String) : List String :=
  (splitSlash (trimSlash path.data)).map String.mk

/-- The function `ExtractPlaylistID`.  The library call `url.Parse` is the parameter
`urlParse`. -/
def ExtractPlaylistID (urlParse : String → Except String URL) (playlistURL : String) :
    Except String ID :=
  match urlParse playlistURL with
  | .error e => .error ("parsing URL: " ++ e)
  | .ok u =>
    let pathParts := pathSegments u.Path
    if pathParts.length < 2 || pathParts.getD 0 "" != "playlist" then
      .error "invalid playlist URL format"
    else
      .ok (pathParts.getD 1 "")

/-- The function `GetTrackIDs`: the identifiers of the items whose track is not nil,
in order. -/
def GetTrackIDs (items : List PlaylistItem) : List ID :=
  items.foldl
    (fun ids item =>
      match item.track with
      | some id => ids ++ [id]
      | none => ids)
    []

/-- The constant `batchSize` of `AddTracksToPlaylist`. -/
def batchSize : Nat := 100

/-- The outcome of one call of `AddTracksToPlaylist`: the batches sent to the remote,
in call order, and the error returned, if any (the message names `i` and `end-1`). -/
structure AddResult where
  issued : List (List ID)
  err : Option String
deriving DecidableEq

/-- The loop `for i := 0; i < len(trackIDs); i += batchSize` of `AddTracksToPlaylist`,
started at index `i` with the batches `issued` already sent.  The answer of the remote
to the request number `k` of this call (from 0) is `appendOk k`; a failing request ends
the loop with the error.  The first argument bounds the number of iterations; the loop
is run with `trackIDs.length` of them, which is never what stops it
(see `addLoop_fuel_stable`). -/
def addLoop (trackIDs : List ID) (appendOk : Nat → Bool) :
    Nat → Nat → List (List ID) → AddResult
  | 0, _, issued => { issued := issued, err := none }
  | fuel + 1, i, issued =>
    if i < trackIDs.length then
      let end_ := if i + batchSize > trackIDs.length then trackIDs.length else i + batchSize
      let batch := (trackIDs.drop i).take (end_ - i)
      if appendOk issued.length then
        addLoop trackIDs appendOk fuel (i + batchSize) (issued ++ [batch])
      else
        { issued := issued ++ [batch],
          err := some ("adding tracks batch " ++ toString i ++ "-" ++ toString (end_ - 1)) }
    else
      { issued := issued, err := none }

/-- The method `Client.AddTracksToPlaylist`. -/
def AddTracksToPlaylist (trackIDs : List ID) (appendOk : Nat → Bool) : AddResult :=
  addLoop trackIDs appendOk trackIDs.length 0 []

/-! ## `monitor/monitor.go` -/

/-- The registry `make(map[spotifyapi.ID]map[spotifyapi.ID]bool)`. -/
def emptyRegistry : Registry := fun _ => none

/-- The loop of `NewMonitor` over `cfg.SubPlaylistURLs`: the first reference that
does not resolve ends it with an error. -/
def resolveSubs (urlParse : String → Except String URL) :
    List String → List ID → Except String (List ID)
  | [], subIDs => .ok subIDs
  | url :: rest, subIDs =>
    match ExtractPlaylistID urlParse url with
    | .error e => .error ("extracting sub playlist ID from " ++ url ++ ": " ++ e)
    | .ok id => resolveSubs urlParse rest (subIDs ++ [id])

/-- The function `NewMonitor`. -/
def NewMonitor (urlParse : String → Except String URL) (cfg : Config) : Except String Monitor :=
  match ExtractPlaylistID urlParse cfg.MasterPlaylistURL with
  | .error e => .error ("extracting master playlist ID: " ++ e)
  | .ok masterID =>
    match resolveSubs urlParse cfg.SubPlaylistURLs [] with
    | .error e => .error e
    | .ok subIDs => .ok { masterID := masterID, subIDs := subIDs, knownTracks := emptyRegistry }

/-- The loop `for _, trackID := range ids { knownTracks[trackID] = true }`. -/
def markKnown (ids : List ID) (knownTracks : TrackSet) : TrackSet :=
  ids.foldl (fun known trackID => Function.update known trackID true) knownTracks

/-- The remote answers of a pass over the sources, by position: the answer to the scan
of the first source is the value at 0.  The function drops the first answer. -/
def shift {α : Type} (env : Nat → α) : Nat → α := fun i => env (i + 1)

/-- The loop of `Initialize` over `m.subIDs`: `subFetch 0` is the result of
`GetPlaylistTracks` for the first source of the list (`none` when it fails). -/
def initLoop (masterTrackIDs : List ID) :
    List ID → (Nat → Option (List PlaylistItem)) → Registry → Registry
  | [], _, registry => registry
  | subID :: rest, subFetch, registry =>
    match subFetch 0 with
    | none => initLoop masterTrackIDs rest (shift subFetch) registry
    | some subItems =>
      let subTrackIDs := GetTrackIDs subItems
      let knownTracks := markKnown masterTrackIDs (markKnown subTrackIDs (fun _ => false))
      initLoop masterTrackIDs rest (shift subFetch)
        (Function.update registry subID (some knownTracks))

/-- The method `Monitor.Initialize`: `masterFetch` is the result of `GetPlaylistTracks`
for the master playlist, `subFetch i` the one for the source at position `i`. -/
def Initialize (m : Monitor) (masterFetch : Option (List PlaylistItem))
    (subFetch : Nat → Option (List PlaylistItem)) : Except String Monitor :=
  match masterFetch with
  | none => .error "getting master playlist tracks"
  | some masterItems =>
    let masterTrackIDs := GetTrackIDs masterItems
    .ok { m with knownTracks := initLoop masterTrackIDs m.subIDs subFetch m.knownTracks }

/-- One step of the loop "find new tracks" of `scanPlaylist`. -/
def diffStep (st : List ID × TrackSet) (trackID : ID) : List ID × TrackSet :=
  if !st.2 trackID then (st.1 ++ [trackID], Function.update st.2 trackID true) else st

/-- The loop "find new tracks" of `scanPlaylist`: the list `newTracks` and the
updated map `knownTracks`. -/
def diffLoop (currentTracks : List ID) (knownTracks : TrackSet) : List ID × TrackSet :=
  currentTracks.foldl diffStep ([], knownTracks)

/-- The answers of the remote during one call of `scanPlaylist`: the result of
`GetPlaylistTracks` (`none` when it fails) and, for each append request sent by
`AddTracksToPlaylist`, whether it succeeds. -/
structure ScanEnv where
  fetch : Option (List PlaylistItem)
  appendOk : Nat → Bool

/-- The outcome of one call of `scanPlaylist`: the monitor afterwards, the error
returned, the argument of the call of `AddTracksToPlaylist` (`none` when it is not
called) and the batches sent to the remote. -/
structure ScanResult where
  monitor : Monitor
  err : Option String
  added : Option (List ID)
  batches : List (List ID)

/-- The method `Monitor.scanPlaylist`. -/
def scanPlaylist (m : Monitor) (playlistID : ID) (env : ScanEnv) : ScanResult :=
  match env.fetch with
  | none => { monitor := m, err := some "getting tracks", added := none, batches := [] }
  | some items =>
    let currentTracks := GetTrackIDs items
    match m.knownTracks playlistID with
    | none =>
      { monitor := m, err := some ("knownTracks not initialized for playlist " ++ playlistID),
        added := none, batches := [] }
    | some knownTracks =>
      let diff := diffLoop currentTracks knownTracks
      let newTracks := diff.1
      let m1 : Monitor :=
        { m with knownTracks := Function.update m.knownTracks playlistID (some diff.2) }
      if newTracks.length > 0 then
        let r := AddTracksToPlaylist newTracks env.appendOk
        { monitor := m1, err := r.err.map (fun e => "adding tracks to master: " ++ e),
          added := some newTracks, batches := r.issued }
      else
        { monitor := m1, err := none, added := none, batches := [] }

/-- One entry of the log of a run: the source scanned and what its scan did. -/
structure ScanRecord where
  playlistID : ID
  err : Option String
  added : Option (List ID)
  batches : List (List ID)
deriving DecidableEq

/-- The log entry of a scan. -/
def ScanResult.record (playlistID : ID) (r : ScanResult) : ScanRecord :=
  { playlistID := playlistID, err := r.err, added := r.added, batches := r.batches }

/-- The loop of `scanAllPlaylists` over the sources: an error of `scanPlaylist` is
logged and the loop continues. -/
def scanLoop : Monitor → List ID → (Nat → ScanEnv) → List ScanRecord → Monitor × List ScanRecord
  | m, [], _, log => (m, log)
  | m, playlistID :: rest, env, log =>
    let r := scanPlaylist m playlistID (env 0)
    scanLoop r.monitor rest (shift env) (log ++ [r.record playlistID])

/-- The outcome of `scanAllPlaylists`: the monitor afterwards, the scans made in
order, and the error returned. -/
structure CycleResult where
  monitor : Monitor
  scans : List ScanRecord
  err : Option String

/-- The method `Monitor.scanAllPlaylists`: `env i` holds the answers of the remote
during the scan of the source at position `i`. -/
def scanAllPlaylists (m : Monitor) (env : Nat → ScanEnv) : CycleResult :=
  let r := scanLoop m m.subIDs env []
  { monitor := r.1, scans := r.2, err := none }

/-- The ticks of `Start` before cancellation: one call of `scanAllPlaylists` per
element of `cycles`, the scans of all of them logged in order. -/
def runCycles : Monitor → List (Nat → ScanEnv) → List ScanRecord → Monitor × List ScanRecord
  | m, [], log => (m, log)
  | m, env :: rest, log =>
    let r := scanAllPlaylists m env
    runCycles r.monitor rest (log ++ r.scans)

/-- The method `Monitor.Start`, cancelled after `cycles.length` ticks: the monitor at
the end and the log of all scans, or the error of `Initialize`. -/
def Start (m : Monitor) (masterFetch : Option (List PlaylistItem))
    (subFetch : Nat → Option (List PlaylistItem)) (cycles : List (Nat → ScanEnv)) :
    Except String (Monitor × List ScanRecord) :=
  match Initialize m masterFetch subFetch with
  | .error e => .error ("initialization failed: " ++ e)
  | .ok m1 => .ok (runCycles m1 cycles [])

/-! ## `main.go` -/

/-- What the credential step of `main` (lines 46-55) does. -/
inductive CredentialStep where
  | sliceOutOfRange
  | exitMissingCredentials
  | proceed
deriving DecidableEq

/-- The credential step of `main`: the argument `clientSecret[:4]` of the debug log is
evaluated first, a slice of the first 4 bytes that is out of range for a shorter
string; then the test `clientID == "" || clientSecret == ""`. -/
def credentialStep (clientID clientSecret : String) : CredentialStep :=
  if clientSecret.utf8ByteSize < 4 then .sliceOutOfRange
  else if clientID == "" || clientSecret == "" then .exitMissingCredentials
  else .proceed

/-! ## Definitions used to state the properties -/

/-- The path `url.Parse` returns for the three references of the examples; every
other reference is left unparsed.  This is a value for the parameter `urlParse`
at which closed examples are evaluated. -/
def sampleParse (playlistURL : String) : Except String URL :=
  if playlistURL = "https://service/playlist/xyz" then .ok { Path := "/playlist/xyz" }
  else if playlistURL = "https://service/album/abc" then .ok { Path := "/album/abc" }
  else if playlistURL = "https://service/playlist//abc" then .ok { Path := "/playlist//abc" }
  else .error "unparsed"

/-- The batches of a list, as the interface describes them: chunks of at most
`batchSize` identifiers, in order.  The first argument bounds the number of chunks. -/
def chunks : Nat → List ID → List (List ID)
  | 0, _ => []
  | fuel + 1, rest =>
    if rest = [] then [] else rest.take batchSize :: chunks fuel (rest.drop batchSize)

/-- The identifiers of a list, each once, in the order of their first occurrence. -/
def firstOccurrences : List ID → List ID
  | [] => []
  | t :: rest => t :: (firstOccurrences rest).filter (fun u => u != t)

/-- The identifiers of the listing `current` that are not in the known-set, each once,
in the order of their first occurrence: the result of `diff` as the interface
describes it. -/
def newOf (knownTracks : TrackSet) (current : List ID) : List ID :=
  firstOccurrences (current.filter (fun t => !knownTracks t))

/-- The identifiers passed to `AddTracksToPlaylist` by a scan (none when it is not
called). -/
def ScanRecord.passed (r : ScanRecord) : List ID := r.added.getD []

/-- The identifiers passed to `AddTracksToPlaylist` by the scans of the source `s`,
in the order of the log. -/
def passedFor (s : ID) (log : List ScanRecord) : List ID :=
  ((log.filter (fun r => r.playlistID = s)).map ScanRecord.passed).flatten

/-- The identifiers passed to `AddTracksToPlaylist` over the whole log, in order. -/
def passedAll (log : List ScanRecord) : List ID :=
  (log.map ScanRecord.passed).flatten

/-- The remote answers of a pass over `ids` without the answers to the scans of the
source `B`: the answers the other sources get, in their order. -/
def dropSource {α : Type} (B : ID) : List ID → (Nat → α) → (Nat → α)
  | [], env => env
  | id :: rest, env =>
    if id = B then dropSource B rest (shift env)
    else fun i =>
      match i with
      | 0 => env 0
      | j + 1 => dropSource B rest (shift env) j

/-- The invariant of a run whose master listing at initialization is `master`: every
registered known-set holds the identifiers of `master`; what the scans of a source
have passed to `AddTracksToPlaylist` is in the known-set of that source and has no
repetition; no identifier of `master` has been passed. -/
def RunInv (master : List ID) (m : Monitor) (log : List ScanRecord) : Prop :=
  (∀ s K, m.knownTracks s = some K → ∀ t ∈ master, K t = true) ∧
  (∀ s t, t ∈ passedFor s log → ∃ K, m.knownTracks s = some K ∧ K t = true) ∧
  (∀ s, (passedFor s log).Nodup) ∧
  (∀ t ∈ master, t ∉ passedAll log)

/-! ## `ExtractPlaylistID` and `NewMonitor` -/

theorem ExtractPlaylistID_ok_iff (urlParse : String → Except String URL) (playlistURL : String)
    (id : ID) :
    ExtractPlaylistID urlParse playlistURL = .ok id ↔
      ∃ u rest, urlParse playlistURL = .ok u ∧ pathSegments u.Path = "playlist" :: id :: rest := by
  unfold ExtractPlaylistID
  cases hp : urlParse playlistURL with
  | error e => simp
  | ok u =>
    simp only [Except.ok.injEq, exists_and_left, exists_eq_left']
    rcases hs : pathSegments u.Path with _ | ⟨a, _ | ⟨b, rest⟩⟩
    · simp
    · simp
    · by_cases ha : a = "playlist"
      · subst ha
        have hlen : ¬ (rest.length + 1 + 1 < 2) := by omega
        simp [List.getD, hlen]
      · simp [List.getD, ha]

theorem ExtractPlaylistID_error_iff (urlParse : String → Except String URL) (playlistURL : String) :
    (∃ e, ExtractPlaylistID urlParse playlistURL = .error e) ↔
      ¬ ∃ id u rest, urlParse playlistURL = .ok u ∧
          pathSegments u.Path = "playlist" :: id :: rest := by
  constructor
  · rintro ⟨e, he⟩ ⟨id, u, rest, hu, hseg⟩
    have := (ExtractPlaylistID_ok_iff urlParse playlistURL id).2 ⟨u, rest, hu, hseg⟩
    rw [he] at this
    cases this
  · intro h
    cases hx : ExtractPlaylistID urlParse playlistURL with
    | error e => exact ⟨e, rfl⟩
    | ok id =>
      obtain ⟨u, rest, hu, hseg⟩ := (ExtractPlaylistID_ok_iff urlParse playlistURL id).1 hx
      exact absurd ⟨id, u, rest, hu, hseg⟩ h

/-- C5 (amended): `ExtractPlaylistID` succeeds exactly when the reference parses and
its path, trimmed of leading and trailing slashes and split at the slashes, has at
least two segments of which the first is the literal "playlist"; it then returns the
second segment, whatever it is (the code does not test that it is non-empty); every
other shape returns an error.  The reference "https://service/playlist/xyz" resolves
to "xyz" and "https://service/album/abc" is rejected. -/
theorem ExtractPlaylistID_segments (urlParse : String → Except String URL)
    (playlistURL : String) :
    (∀ id, ExtractPlaylistID urlParse playlistURL = .ok id ↔
        ∃ u rest, urlParse playlistURL = .ok u ∧
          pathSegments u.Path = "playlist" :: id :: rest) ∧
    ((∃ e, ExtractPlaylistID urlParse playlistURL = .error e) ↔
        ¬ ∃ id u rest, urlParse playlistURL = .ok u ∧
          pathSegments u.Path = "playlist" :: id :: rest) ∧
    (urlParse playlistURL = .ok { Path := "/playlist/xyz" } →
        ExtractPlaylistID urlParse playlistURL = .ok "xyz") ∧
    (urlParse playlistURL = .ok { Path := "/album/abc" } →
        ∃ e, ExtractPlaylistID urlParse playlistURL = .error e) ∧
    ExtractPlaylistID sampleParse "https://service/playlist/xyz" = .ok "xyz" ∧
    ExtractPlaylistID sampleParse "https://service/album/abc" =
      .error "invalid playlist URL format" := by
  refine ⟨ExtractPlaylistID_ok_iff urlParse playlistURL,
    ExtractPlaylistID_error_iff urlParse playlistURL, ?_, ?_, by decide, by decide⟩
  · intro h
    exact (ExtractPlaylistID_ok_iff urlParse playlistURL "xyz").2 ⟨_, [], h, by decide⟩
  · intro h
    refine (ExtractPlaylistID_error_iff urlParse playlistURL).2 ?_
    rintro ⟨id, u, rest, hu, hseg⟩
    rw [h] at hu
    cases hu
    revert hseg
    have hpath : pathSegments "/album/abc" = ["album", "abc"] := by decide
    rw [hpath]
    intro hseg
    have hhead := (List.cons.inj hseg).1
    revert hhead
    decide

/-- C5, counterexample: the path "/playlist//abc" has the segments "playlist", "" and
"abc", and `ExtractPlaylistID` succeeds on it with the empty identifier: the second
segment is empty and the reference is not rejected. -/
theorem ExtractPlaylistID_empty_second_segment :
    pathSegments "/playlist//abc" = ["playlist", "", "abc"] ∧
    ExtractPlaylistID sampleParse "https://service/playlist//abc" = .ok "" := by
  decide

theorem resolveSubs_ok (urlParse : String → Except String URL) (urls : List String) :
    ∀ (acc ids : List ID),
      urls.map (ExtractPlaylistID urlParse) = ids.map Except.ok →
      resolveSubs urlParse urls acc = .ok (acc ++ ids) := by
  induction urls with
  | nil =>
    intro acc ids h
    cases ids with
    | nil => simp [resolveSubs]
    | cons a t => simp at h
  | cons url rest ih =>
    intro acc ids h
    cases ids with
    | nil => simp at h
    | cons a t =>
      simp only [List.map_cons, List.cons.injEq] at h
      simp only [resolveSubs, h.1]
      rw [ih (acc ++ [a]) t h.2]
      simp

theorem resolveSubs_error (urlParse : String → Except String URL) (urls : List String) :
    ∀ (acc : List ID),
      (∃ url ∈ urls, ∃ e, ExtractPlaylistID urlParse url = .error e) →
      ∃ e, resolveSubs urlParse urls acc = .error e := by
  induction urls with
  | nil =>
    rintro acc ⟨url, hmem, _⟩
    cases hmem
  | cons url rest ih =>
    rintro acc ⟨bad, hmem, e, he⟩
    cases hx : ExtractPlaylistID urlParse url with
    | error e1 =>
      refine ⟨"extracting sub playlist ID from " ++ url ++ ": " ++ e1, ?_⟩
      simp only [resolveSubs, hx]
    | ok id =>
      simp only [resolveSubs, hx]
      rcases List.mem_cons.1 hmem with rfl | hrest
      · rw [hx] at he
        cases he
      · exact ih _ ⟨bad, hrest, e, he⟩

/-- C9 (amended): when the master reference is valid, `NewMonitor` returns a monitor
only if every source reference is well-formed; its source list then holds their
identifiers in the configured order and its registry is empty.  A malformed reference
among the sources makes `NewMonitor` return an error and no monitor. -/
theorem NewMonitor_sources (urlParse : String → Except String URL) (cfg : Config)
    (masterID : ID)
    (hmaster : ExtractPlaylistID urlParse cfg.MasterPlaylistURL = .ok masterID) :
    (∀ ids, cfg.SubPlaylistURLs.map (ExtractPlaylistID urlParse) = ids.map Except.ok →
        NewMonitor urlParse cfg =
          .ok { masterID := masterID, subIDs := ids, knownTracks := emptyRegistry }) ∧
    ((∃ url ∈ cfg.SubPlaylistURLs, ∃ e, ExtractPlaylistID urlParse url = .error e) →
        ∃ e, NewMonitor urlParse cfg = .error e) := by
  constructor
  · intro ids h
    simp only [NewMonitor, hmaster, resolveSubs_ok urlParse _ [] ids h, List.nil_append]
  · intro h
    obtain ⟨e, he⟩ := resolveSubs_error urlParse _ [] h
    exact ⟨e, by simp only [NewMonitor, hmaster, he]⟩

/-- C9, witness: a configuration with a valid master and two well-formed sources. -/
theorem NewMonitor_sources_witness :
    ExtractPlaylistID sampleParse "https://service/playlist/xyz" = .ok "xyz" ∧
    NewMonitor sampleParse
        { SubPlaylistURLs := ["https://service/playlist/xyz", "https://service/playlist//abc"],
          MasterPlaylistURL := "https://service/playlist/xyz" } =
      .ok { masterID := "xyz", subIDs := ["xyz", ""], knownTracks := emptyRegistry } :=
  ⟨by decide,
    (NewMonitor_sources sampleParse
      { SubPlaylistURLs := ["https://service/playlist/xyz", "https://service/playlist//abc"],
        MasterPlaylistURL := "https://service/playlist/xyz" } "xyz" (by decide)).1
      ["xyz", ""] (by decide)⟩

/-- C9, counterexample: with a valid master reference, one well-formed source and one
malformed source, `NewMonitor` returns an error, not a monitor holding the well-formed
source. -/
theorem NewMonitor_malformed_source_fails :
    ExtractPlaylistID sampleParse "https://service/playlist/xyz" = .ok "xyz" ∧
    NewMonitor sampleParse
        { SubPlaylistURLs := ["https://service/playlist/xyz", "https://service/album/abc"],
          MasterPlaylistURL := "https://service/playlist/xyz" } =
      .error ("extracting sub playlist ID from https://service/album/abc: " ++
        "invalid playlist URL format") := by
  constructor
  · decide
  · rfl

/-! ## The credential step of `main` -/

/-- C10: with an empty client secret the credential step of `main` does not reach the
missing-credentials branch: the slice `clientSecret[:4]` is out of range. -/
theorem credentialStep_empty_secret (clientID : String) :
    credentialStep clientID "" = .sliceOutOfRange := by
  simp [credentialStep, String.utf8ByteSize, String.utf8ByteSize.go]

theorem credentialStep_short_secret (clientID clientSecret : String)
    (h : clientSecret.utf8ByteSize < 4) :
    credentialStep clientID clientSecret = .sliceOutOfRange := by
  simp [credentialStep, h]

theorem credentialStep_missing_id (clientSecret : String)
    (h : 4 ≤ clientSecret.utf8ByteSize) :
    credentialStep "" clientSecret = .exitMissingCredentials := by
  have h4 : ¬ clientSecret.utf8ByteSize < 4 := by omega
  simp [credentialStep, h4]

/-! ## `AddTracksToPlaylist` -/

theorem chunks_ne_nil {fuel : Nat} {rest : List ID} (h : chunks fuel rest ≠ []) : rest ≠ [] := by
  cases fuel with
  | zero => simp [chunks] at h
  | succ n =>
    intro hr
    simp [chunks, hr] at h

theorem chunks_join (fuel : Nat) : ∀ rest : List ID, rest.length ≤ fuel →
    (chunks fuel rest).flatten = rest := by
  induction fuel with
  | zero =>
    intro rest h
    have : rest = [] := List.length_eq_zero.1 (Nat.le_zero.1 h)
    simp [chunks, this]
  | succ n ih =>
    intro rest h
    by_cases hr : rest = []
    · simp [chunks, hr]
    · have hpos : 0 < rest.length := List.length_pos.2 hr
      have hlen : (rest.drop batchSize).length ≤ n := by
        simp only [List.length_drop, batchSize]
        omega
      simp only [chunks, hr, if_false, List.flatten_cons, ih _ hlen, List.take_append_drop]

theorem chunks_length (fuel : Nat) : ∀ rest : List ID, rest.length ≤ fuel →
    (chunks fuel rest).length = (rest.length + 99) / 100 := by
  induction fuel with
  | zero =>
    intro rest h
    have : rest = [] := List.length_eq_zero.1 (Nat.le_zero.1 h)
    simp [chunks, this]
  | succ n ih =>
    intro rest h
    by_cases hr : rest = []
    · simp [chunks, hr]
    · have hpos : 0 < rest.length := List.length_pos.2 hr
      have hlen : (rest.drop batchSize).length ≤ n := by
        simp only [List.length_drop, batchSize]
        omega
      rw [chunks]
      simp only [hr, if_false, List.length_cons]
      rw [ih _ hlen]
      simp only [List.length_drop, batchSize]
      omega

theorem chunks_bounds (fuel : Nat) : ∀ rest : List ID, ∀ b ∈ chunks fuel rest,
    0 < b.length ∧ b.length ≤ 100 := by
  induction fuel with
  | zero =>
    intro rest b hb
    simp [chunks] at hb
  | succ n ih =>
    intro rest b hb
    by_cases hr : rest = []
    · simp [chunks, hr] at hb
    · have hpos : 0 < rest.length := List.length_pos.2 hr
      simp only [chunks, hr, if_false, List.mem_cons] at hb
      rcases hb with rfl | hb
      · simp only [List.length_take, batchSize]
        omega
      · exact ih _ b hb

theorem chunks_full (fuel : Nat) : ∀ rest : List ID, ∀ b ∈ (chunks fuel rest).dropLast,
    b.length = 100 := by
  induction fuel with
  | zero =>
    intro rest b hb
    simp [chunks] at hb
  | succ n ih =>
    intro rest b hb
    by_cases hr : rest = []
    · simp [chunks, hr] at hb
    · simp only [chunks, hr, if_false] at hb
      by_cases htail : chunks n (rest.drop batchSize) = []
      · simp [htail] at hb
      · rw [List.dropLast_cons_of_ne_nil htail, List.mem_cons] at hb
        rcases hb with rfl | hb
        · have hne := chunks_ne_nil htail
          have hpos : 0 < (rest.drop batchSize).length := List.length_pos.2 hne
          simp only [List.length_drop, batchSize] at hpos
          simp only [List.length_take, batchSize]
          omega
        · exact ih _ b hb

theorem chunks_sizes_250 (fuel : Nat) (rest : List ID) (hfuel : rest.length ≤ fuel)
    (h : rest.length = 250) : (chunks fuel rest).map List.length = [100, 100, 50] := by
  obtain ⟨f1, rfl⟩ : ∃ f, fuel = f + 1 := ⟨fuel - 1, by omega⟩
  obtain ⟨f2, rfl⟩ : ∃ f, f1 = f + 1 := ⟨f1 - 1, by omega⟩
  obtain ⟨f3, rfl⟩ : ∃ f, f2 = f + 1 := ⟨f2 - 1, by omega⟩
  obtain ⟨f4, rfl⟩ : ∃ f, f3 = f + 1 := ⟨f3 - 1, by omega⟩
  have h0 : rest ≠ [] := by
    intro h0
    simp [h0] at h
  have h1 : rest.drop batchSize ≠ [] := by
    intro h1
    have := congrArg List.length h1
    simp [batchSize, h] at this
  have h2 : (rest.drop batchSize).drop batchSize ≠ [] := by
    intro h2
    have := congrArg List.length h2
    simp [batchSize, h] at this
  have h3 : ((rest.drop batchSize).drop batchSize).drop batchSize = [] := by
    apply List.length_eq_zero.1
    simp [batchSize, h]
  simp [chunks, h0, h1, h2, h3, h, batchSize]

theorem addLoop_all_ok (trackIDs : List ID) (appendOk : Nat → Bool)
    (hok : ∀ k, appendOk k = true) (fuel : Nat) :
    ∀ (i : Nat) (issued : List (List ID)),
      addLoop trackIDs appendOk fuel i issued =
        { issued := issued ++ chunks fuel (trackIDs.drop i), err := none } := by
  induction fuel with
  | zero =>
    intro i issued
    simp [addLoop, chunks]
  | succ n ih =>
    intro i issued
    by_cases hi : i < trackIDs.length
    · have hne : trackIDs.drop i ≠ [] := by
        intro h0
        have := congrArg List.length h0
        simp only [List.length_drop, List.length_nil] at this
        omega
      have hbatch :
          (trackIDs.drop i).take
              ((if i + batchSize > trackIDs.length then trackIDs.length else i + batchSize) - i) =
            (trackIDs.drop i).take batchSize := by
        by_cases hend : i + batchSize > trackIDs.length
        · rw [if_pos hend, List.take_of_length_le, List.take_of_length_le]
          · simp only [List.length_drop]
            omega
          · simp only [List.length_drop]
            omega
        · rw [if_neg hend]
          congr 1
          omega
      simp only [addLoop, hi, if_true, hok, hbatch, ih, chunks, hne, if_false, List.drop_drop,
        List.append_assoc, List.singleton_append]
    · have hnil : trackIDs.drop i = [] := List.drop_eq_nil_of_le (by omega)
      simp [addLoop, hi, chunks, hnil]

/-- The bound on the iterations of `addLoop` is never what stops the loop: from index
`i`, every bound that covers the rest of the list gives the same outcome. -/
theorem addLoop_fuel_stable (trackIDs : List ID) (appendOk : Nat → Bool) (fuel : Nat) :
    ∀ (i : Nat) (issued : List (List ID)), trackIDs.length - i ≤ fuel →
      addLoop trackIDs appendOk (fuel + 1) i issued = addLoop trackIDs appendOk fuel i issued := by
  induction fuel with
  | zero =>
    intro i issued h
    have hi : ¬ i < trackIDs.length := by omega
    simp [addLoop, hi]
  | succ n ih =>
    intro i issued h
    rw [addLoop]
    by_cases hi : i < trackIDs.length
    · have hnext : trackIDs.length - (i + batchSize) ≤ n := by
        simp only [batchSize]
        omega
      conv_rhs => rw [addLoop]
      simp only [hi, if_true]
      rw [ih _ _ hnext]
    · conv_rhs => rw [addLoop]
      simp only [hi, if_false]

/-- C4: when every remote call succeeds `AddTracksToPlaylist` returns no error and, for
a list of n identifiers, sends exactly ceil(n/100) append requests (none when n = 0);
every batch is non-empty and has at most 100 identifiers, every batch but the last
has exactly 100, and the batches concatenated in call order are the input list; for
n = 250 the batches have sizes 100, 100, 50. -/
theorem AddTracksToPlaylist_batches (trackIDs : List ID) (appendOk : Nat → Bool)
    (hok : ∀ k, appendOk k = true) :
    (AddTracksToPlaylist trackIDs appendOk).err = none ∧
    (AddTracksToPlaylist trackIDs appendOk).issued.length = (trackIDs.length + 99) / 100 ∧
    (trackIDs.length = 0 → (AddTracksToPlaylist trackIDs appendOk).issued = []) ∧
    (∀ b ∈ (AddTracksToPlaylist trackIDs appendOk).issued, 0 < b.length ∧ b.length ≤ 100) ∧
    (∀ b ∈ (AddTracksToPlaylist trackIDs appendOk).issued.dropLast, b.length = 100) ∧
    (AddTracksToPlaylist trackIDs appendOk).issued.flatten = trackIDs ∧
    (trackIDs.length = 250 →
      (AddTracksToPlaylist trackIDs appendOk).issued.map List.length = [100, 100, 50]) := by
  have hrun : AddTracksToPlaylist trackIDs appendOk =
      { issued := chunks trackIDs.length trackIDs, err := none } := by
    simp [AddTracksToPlaylist, addLoop_all_ok trackIDs appendOk hok]
  rw [hrun]
  refine ⟨rfl, chunks_length _ _ (Nat.le_refl _), ?_, chunks_bounds _ _, chunks_full _ _,
    chunks_join _ _ (Nat.le_refl _), chunks_sizes_250 _ _ (Nat.le_refl _)⟩
  intro h0
  have hnil : trackIDs = [] := List.length_eq_zero.1 h0
  subst hnil
  rfl

/-- C4, witness: 250 identifiers and a remote that accepts every request. -/
theorem AddTracksToPlaylist_batches_witness :
    (AddTracksToPlaylist (List.replicate 250 "t") (fun _ => true)).issued.map List.length =
      [100, 100, 50] :=
  (AddTracksToPlaylist_batches (List.replicate 250 "t") (fun _ => true)
    (fun _ => rfl)).2.2.2.2.2.2 (List.length_replicate 250 "t")

/-! ## The diff step of `scanPlaylist` -/

theorem GetTrackIDs_eq_filterMap (items : List PlaylistItem) :
    GetTrackIDs items = items.filterMap (fun item => item.track) := by
  have key : ∀ (l : List PlaylistItem) (acc : List ID),
      l.foldl (fun ids item =>
        match item.track with
        | some id => ids ++ [id]
        | none => ids) acc = acc ++ l.filterMap (fun item => item.track) := by
    intro l
    induction l with
    | nil => simp
    | cons a t ih =>
      intro acc
      cases ha : a.track with
      | none => simp [List.foldl_cons, ha, ih, List.filterMap_cons]
      | some id => simp [List.foldl_cons, ha, ih, List.filterMap_cons]
  simpa [GetTrackIDs] using key items []

theorem markKnown_apply (ids : List ID) : ∀ (knownTracks : TrackSet) (t : ID),
    markKnown ids knownTracks t = (knownTracks t || decide (t ∈ ids)) := by
  induction ids with
  | nil => simp [markKnown]
  | cons a rest ih =>
    intro knownTracks t
    have hstep : markKnown (a :: rest) knownTracks =
        markKnown rest (Function.update knownTracks a true) := rfl
    rw [hstep, ih]
    by_cases hta : t = a
    · subst hta
      simp
    · simp [Function.update_noteq hta, hta]

theorem firstOccurrences_filter (p : ID → Bool) (l : List ID) :
    (firstOccurrences l).filter p = firstOccurrences (l.filter p) := by
  induction l with
  | nil => simp [firstOccurrences]
  | cons a rest ih =>
    by_cases hpa : p a = true
    · simp only [firstOccurrences, List.filter_cons, hpa, if_true, List.filter_filter, ← ih]
      congr 1
      apply List.filter_congr
      intro x _
      exact Bool.and_comm _ _
    · simp only [firstOccurrences, List.filter_cons, hpa, List.filter_filter]
      simp only [Bool.false_eq_true, if_false]
      rw [← ih]
      apply List.filter_congr
      intro x _
      by_cases hxa : x = a
      · subst hxa
        simp [hpa]
      · simp [hxa]

theorem mem_firstOccurrences (l : List ID) (t : ID) : t ∈ firstOccurrences l ↔ t ∈ l := by
  induction l with
  | nil => simp [firstOccurrences]
  | cons a rest ih =>
    by_cases hta : t = a
    · simp [firstOccurrences, hta]
    · simp [firstOccurrences, hta, ih]

theorem firstOccurrences_nodup (l : List ID) : (firstOccurrences l).Nodup := by
  induction l with
  | nil => simp [firstOccurrences]
  | cons a rest ih =>
    simp only [firstOccurrences, List.nodup_cons]
    exact ⟨by simp, ih.filter _⟩

theorem firstOccurrences_sublist (l : List ID) : (firstOccurrences l).Sublist l := by
  induction l with
  | nil => simp [firstOccurrences]
  | cons a rest ih =>
    simp only [firstOccurrences]
    exact List.Sublist.cons₂ a ((List.filter_sublist _).trans ih)

theorem mem_newOf (knownTracks : TrackSet) (current : List ID) (t : ID) :
    t ∈ newOf knownTracks current ↔ t ∈ current ∧ knownTracks t = false := by
  simp [newOf, mem_firstOccurrences, List.mem_filter]

theorem newOf_nodup (knownTracks : TrackSet) (current : List ID) :
    (newOf knownTracks current).Nodup :=
  firstOccurrences_nodup _

theorem newOf_sublist (knownTracks : TrackSet) (current : List ID) :
    (newOf knownTracks current).Sublist current :=
  (firstOccurrences_sublist _).trans (List.filter_sublist _)

theorem foldl_diffStep (current : List ID) : ∀ (acc : List ID) (knownTracks : TrackSet),
    current.foldl diffStep (acc, knownTracks) =
      (acc ++ newOf knownTracks current, markKnown current knownTracks) := by
  induction current with
  | nil =>
    intro acc knownTracks
    simp [newOf, firstOccurrences, markKnown]
  | cons a rest ih =>
    intro acc knownTracks
    have hmark : markKnown (a :: rest) knownTracks =
        markKnown rest (Function.update knownTracks a true) := rfl
    by_cases hka : knownTracks a = true
    · have hupd : Function.update knownTracks a true = knownTracks := by
        funext x
        by_cases hxa : x = a
        · subst hxa
          simp [hka]
        · simp [Function.update_noteq hxa]
      have hstep : diffStep (acc, knownTracks) a = (acc, knownTracks) := by
        simp [diffStep, hka]
      rw [List.foldl_cons, hstep, ih, hmark, hupd]
      simp [newOf, List.filter_cons, hka]
    · have hstep : diffStep (acc, knownTracks) a =
          (acc ++ [a], Function.update knownTracks a true) := by
        simp [diffStep, hka]
      rw [List.foldl_cons, hstep, ih, hmark]
      have hnew : newOf knownTracks (a :: rest) =
          a :: newOf (Function.update knownTracks a true) rest := by
        have hka0 : knownTracks a = false := by simpa using hka
        simp only [newOf, List.filter_cons, hka0, Bool.not_false, if_true, firstOccurrences,
          firstOccurrences_filter, List.filter_filter]
        congr 2
        apply List.filter_congr
        intro x _
        by_cases hxa : x = a
        · subst hxa
          simp
        · simp [Function.update_noteq hxa, hxa]
      rw [hnew]
      simp

theorem diffLoop_eq (current : List ID) (knownTracks : TrackSet) :
    diffLoop current knownTracks = (newOf knownTracks current, markKnown current knownTracks) := by
  simp [diffLoop, foldl_diffStep]

/-! ## `scanPlaylist` case by case -/

theorem scanPlaylist_fetch_failed (m : Monitor) (s : ID) (env : ScanEnv)
    (hf : env.fetch = none) :
    scanPlaylist m s env =
      { monitor := m, err := some "getting tracks", added := none, batches := [] } := by
  simp [scanPlaylist, hf]

theorem scanPlaylist_not_registered (m : Monitor) (s : ID) (env : ScanEnv)
    (items : List PlaylistItem) (hf : env.fetch = some items) (hK : m.knownTracks s = none) :
    scanPlaylist m s env =
      { monitor := m, err := some ("knownTracks not initialized for playlist " ++ s),
        added := none, batches := [] } := by
  simp [scanPlaylist, hf, hK]

theorem scanPlaylist_registered (m : Monitor) (s : ID) (env : ScanEnv)
    (items : List PlaylistItem) (K : TrackSet)
    (hf : env.fetch = some items) (hK : m.knownTracks s = some K) :
    (scanPlaylist m s env).monitor =
        { m with knownTracks :=
            Function.update m.knownTracks s (some (markKnown (GetTrackIDs items) K)) } ∧
    (scanPlaylist m s env).added =
        (if newOf K (GetTrackIDs items) = [] then none
         else some (newOf K (GetTrackIDs items))) ∧
    (scanPlaylist m s env).batches =
        (if newOf K (GetTrackIDs items) = [] then []
         else (AddTracksToPlaylist (newOf K (GetTrackIDs items)) env.appendOk).issued) ∧
    (scanPlaylist m s env).err =
        (if newOf K (GetTrackIDs items) = [] then none
         else (AddTracksToPlaylist (newOf K (GetTrackIDs items)) env.appendOk).err.map
           (fun e => "adding tracks to master: " ++ e)) := by
  by_cases hnew : newOf K (GetTrackIDs items) = []
  · simp [scanPlaylist, hf, hK, diffLoop_eq, hnew]
  · have hpos : 0 < (newOf K (GetTrackIDs items)).length := List.length_pos.2 hnew
    simp [scanPlaylist, hf, hK, diffLoop_eq, hnew, hpos]

theorem scanPlaylist_passed_registered (m : Monitor) (s : ID) (env : ScanEnv)
    (items : List PlaylistItem) (K : TrackSet)
    (hf : env.fetch = some items) (hK : m.knownTracks s = some K) :
    ((scanPlaylist m s env).record s).passed = newOf K (GetTrackIDs items) := by
  have h := (scanPlaylist_registered m s env items K hf hK).2.1
  by_cases hnew : newOf K (GetTrackIDs items) = []
  · simp [ScanRecord.passed, ScanResult.record, h, hnew]
  · simp [ScanRecord.passed, ScanResult.record, h, hnew]

theorem scanPlaylist_no_new (m : Monitor) (s : ID) (env : ScanEnv)
    (items : List PlaylistItem) (K : TrackSet)
    (hf : env.fetch = some items) (hK : m.knownTracks s = some K)
    (hknown : ∀ t ∈ GetTrackIDs items, K t = true) :
    (scanPlaylist m s env).added = none ∧ (scanPlaylist m s env).batches = [] ∧
    (scanPlaylist m s env).err = none := by
  have hnew : newOf K (GetTrackIDs items) = [] := by
    apply List.eq_nil_iff_forall_not_mem.2
    intro t ht
    have h := (mem_newOf K _ t).1 ht
    rw [hknown t h.1] at h
    exact Bool.noConfusion h.2
  have h := scanPlaylist_registered m s env items K hf hK
  simp only [hnew, if_true] at h
  exact ⟨h.2.1, h.2.2.1, h.2.2.2⟩

/-- C2: for a registered source with known-set `K` and a fetched listing whose
identifiers are `X`, the diff step of `scanPlaylist` produces the list `newTracks` of
the identifiers of `X` that are not in `K`, each once, in the order of their first
occurrence in `X` (a duplicate-free subsequence of `X`); it is the list passed to
`AddTracksToPlaylist` when it is non-empty; afterwards the known-set of the source is
exactly `K` together with the identifiers of `X`. -/
theorem scanPlaylist_diff (m : Monitor) (s : ID) (env : ScanEnv)
    (items : List PlaylistItem) (K : TrackSet)
    (hf : env.fetch = some items) (hK : m.knownTracks s = some K) :
    (diffLoop (GetTrackIDs items) K).1 =
        firstOccurrences ((GetTrackIDs items).filter (fun t => !K t)) ∧
    (diffLoop (GetTrackIDs items) K).1.Nodup ∧
    (diffLoop (GetTrackIDs items) K).1.Sublist (GetTrackIDs items) ∧
    (∀ t, t ∈ (diffLoop (GetTrackIDs items) K).1 ↔ t ∈ GetTrackIDs items ∧ K t = false) ∧
    (scanPlaylist m s env).added =
        (if (diffLoop (GetTrackIDs items) K).1 = [] then none
         else some (diffLoop (GetTrackIDs items) K).1) ∧
    (scanPlaylist m s env).monitor.knownTracks s = some (diffLoop (GetTrackIDs items) K).2 ∧
    (∀ t, (diffLoop (GetTrackIDs items) K).2 t = true ↔ K t = true ∨ t ∈ GetTrackIDs items) := by
  have h := scanPlaylist_registered m s env items K hf hK
  rw [diffLoop_eq]
  refine ⟨rfl, newOf_nodup _ _, newOf_sublist _ _, mem_newOf _ _, h.2.1, ?_, ?_⟩
  · rw [h.1]
    simp
  · intro t
    simp [markKnown_apply]

/-- C2, witness: known-set {"a"}, listing b, a, c, b: the new tracks are b, c. -/
theorem scanPlaylist_diff_witness :
    (diffLoop (GetTrackIDs [⟨some "b"⟩, ⟨some "a"⟩, ⟨none⟩, ⟨some "c"⟩, ⟨some "b"⟩])
        (fun t => t == "a")).1 = ["b", "c"] ∧
    (scanPlaylist
        { masterID := "M", subIDs := ["S"],
          knownTracks := fun p => if p = "S" then some (fun t => t == "a") else none }
        "S"
        { fetch := some [⟨some "b"⟩, ⟨some "a"⟩, ⟨none⟩, ⟨some "c"⟩, ⟨some "b"⟩],
          appendOk := fun _ => true }).added = some ["b", "c"] := by
  have h := scanPlaylist_diff
    { masterID := "M", subIDs := ["S"],
      knownTracks := fun p => if p = "S" then some (fun t => t == "a") else none }
    "S"
    { fetch := some [⟨some "b"⟩, ⟨some "a"⟩, ⟨none⟩, ⟨some "c"⟩, ⟨some "b"⟩],
      appendOk := fun _ => true }
    [⟨some "b"⟩, ⟨some "a"⟩, ⟨none⟩, ⟨some "c"⟩, ⟨some "b"⟩] (fun t => t == "a") rfl rfl
  have hnew : (diffLoop (GetTrackIDs [⟨some "b"⟩, ⟨some "a"⟩, ⟨none⟩, ⟨some "c"⟩, ⟨some "b"⟩])
      (fun t => t == "a")).1 = ["b", "c"] := by decide
  refine ⟨hnew, ?_⟩
  rw [h.2.2.2.2.1, hnew]
  rfl

/-! ## `Initialize` -/

theorem initLoop_all_fail (master : List ID) (s : ID) (ids : List ID) :
    ∀ (subFetch : Nat → Option (List PlaylistItem)) (registry : Registry),
      (∀ j, ids[j]? = some s → subFetch j = none) →
      initLoop master ids subFetch registry s = registry s := by
  induction ids with
  | nil =>
    intro subFetch registry _
    rfl
  | cons a rest ih =>
    intro subFetch registry h
    have hrest : ∀ j, rest[j]? = some s → shift subFetch j = none := by
      intro j hj
      exact h (j + 1) (by simpa using hj)
    cases h0 : subFetch 0 with
    | none =>
      simp only [initLoop, h0]
      exact ih _ _ hrest
    | some subItems =>
      have has : a ≠ s := by
        intro has
        have := h 0 (by simp [has])
        rw [h0] at this
        cases this
      simp only [initLoop, h0]
      rw [ih _ _ hrest]
      exact Function.update_noteq (Ne.symm has) _ _

theorem initLoop_not_mem (master : List ID) (s : ID) (ids : List ID)
    (subFetch : Nat → Option (List PlaylistItem)) (registry : Registry) (hs : s ∉ ids) :
    initLoop master ids subFetch registry s = registry s := by
  apply initLoop_all_fail
  intro j hj
  exact absurd (List.getElem?_mem hj) hs

theorem initLoop_registered (master : List ID) (s : ID) (items : List PlaylistItem)
    (ids : List ID) :
    ∀ (subFetch : Nat → Option (List PlaylistItem)) (registry : Registry),
      s ∈ ids → (∀ j, ids[j]? = some s → subFetch j = some items) →
      initLoop master ids subFetch registry s =
        some (markKnown master (markKnown (GetTrackIDs items) (fun _ => false))) := by
  induction ids with
  | nil =>
    intro subFetch registry hs _
    cases hs
  | cons a rest ih =>
    intro subFetch registry hs h
    have hrest : ∀ j, rest[j]? = some s → shift subFetch j = some items := by
      intro j hj
      exact h (j + 1) (by simpa using hj)
    by_cases hmem : s ∈ rest
    · cases h0 : subFetch 0 with
      | none =>
        simp only [initLoop, h0]
        exact ih _ _ hmem hrest
      | some subItems =>
        simp only [initLoop, h0]
        exact ih _ _ hmem hrest
    · have has : a = s := by
        rcases List.mem_cons.1 hs with h1 | h1
        · exact h1.symm
        · exact absurd h1 hmem
      subst has
      have h0 : subFetch 0 = some items := h 0 (by simp)
      simp only [initLoop, h0]
      rw [initLoop_not_mem master a rest _ _ hmem]
      simp

theorem initLoop_master_known (master : List ID) (ids : List ID) :
    ∀ (subFetch : Nat → Option (List PlaylistItem)) (registry : Registry),
      (∀ s K, registry s = some K → ∀ t ∈ master, K t = true) →
      ∀ s K, initLoop master ids subFetch registry s = some K → ∀ t ∈ master, K t = true := by
  induction ids with
  | nil =>
    intro subFetch registry h
    exact h
  | cons a rest ih =>
    intro subFetch registry h
    cases h0 : subFetch 0 with
    | none =>
      simp only [initLoop, h0]
      exact ih _ _ h
    | some subItems =>
      simp only [initLoop, h0]
      apply ih
      intro s K hsK t ht
      by_cases hsa : s = a
      · subst hsa
        rw [Function.update_same] at hsK
        cases hsK
        simp [markKnown_apply, ht]
      · rw [Function.update_noteq hsa] at hsK
        exact h s K hsK t ht

/-- C3: for a source `s` of the monitor whose listing fetch succeeds during
`Initialize` with the items `items` (track list A; the fetch is the one made at the
position where `s` is declared, at each of them when `s` is declared more than once),
and a master listing with track list B, `Initialize` succeeds and the known-set
registered for `s` is exactly the union of A and B; hence a scan of `s` whose current
listing has the track list A, or the track list B, finds no new tracks, issues no
append and returns no error. -/
theorem Initialize_baseline (m : Monitor) (masterItems : List PlaylistItem)
    (subFetch : Nat → Option (List PlaylistItem)) (s : ID) (items : List PlaylistItem)
    (hs : s ∈ m.subIDs) (hfetch : ∀ j, m.subIDs[j]? = some s → subFetch j = some items) :
    ∃ m1 K, Initialize m (some masterItems) subFetch = .ok m1 ∧
      m1.knownTracks s = some K ∧
      (∀ t, K t = true ↔ t ∈ GetTrackIDs items ∨ t ∈ GetTrackIDs masterItems) ∧
      (∀ (env : ScanEnv) (current : List PlaylistItem), env.fetch = some current →
        (GetTrackIDs current = GetTrackIDs items ∨
          GetTrackIDs current = GetTrackIDs masterItems) →
        (scanPlaylist m1 s env).added = none ∧ (scanPlaylist m1 s env).batches = [] ∧
        (scanPlaylist m1 s env).err = none) := by
  have hreg := initLoop_registered (GetTrackIDs masterItems) s items m.subIDs subFetch
    m.knownTracks hs hfetch
  have hK : ∀ t, markKnown (GetTrackIDs masterItems)
      (markKnown (GetTrackIDs items) (fun _ => false)) t = true ↔
      t ∈ GetTrackIDs items ∨ t ∈ GetTrackIDs masterItems := by
    intro t
    simp [markKnown_apply]
  refine ⟨_, _, rfl, hreg, hK, ?_⟩
  intro env current hf hcur
  apply scanPlaylist_no_new _ s env current _ hf hreg
  intro t ht
  rcases hcur with hc | hc
  · rw [hc] at ht
    exact (hK t).2 (Or.inl ht)
  · rw [hc] at ht
    exact (hK t).2 (Or.inr ht)

/-- C3, witness: master listing t1; source S with listing t1, t2, t3. -/
theorem Initialize_baseline_witness :
    ∃ m1 K, Initialize { masterID := "M", subIDs := ["S"], knownTracks := emptyRegistry }
        (some [⟨some "t1"⟩]) (fun _ => some [⟨some "t1"⟩, ⟨some "t2"⟩, ⟨some "t3"⟩]) = .ok m1 ∧
      m1.knownTracks "S" = some K ∧
      (∀ t, K t = true ↔
        t ∈ GetTrackIDs [⟨some "t1"⟩, ⟨some "t2"⟩, ⟨some "t3"⟩] ∨ t ∈ GetTrackIDs [⟨some "t1"⟩]) ∧
      (∀ (env : ScanEnv) (current : List PlaylistItem), env.fetch = some current →
        (GetTrackIDs current = GetTrackIDs [⟨some "t1"⟩, ⟨some "t2"⟩, ⟨some "t3"⟩] ∨
          GetTrackIDs current = GetTrackIDs [⟨some "t1"⟩]) →
        (scanPlaylist m1 "S" env).added = none ∧ (scanPlaylist m1 "S" env).batches = [] ∧
        (scanPlaylist m1 "S" env).err = none) :=
  Initialize_baseline { masterID := "M", subIDs := ["S"], knownTracks := emptyRegistry }
    [⟨some "t1"⟩] (fun _ => some [⟨some "t1"⟩, ⟨some "t2"⟩, ⟨some "t3"⟩]) "S"
    [⟨some "t1"⟩, ⟨some "t2"⟩, ⟨some "t3"⟩] (by decide) (fun _ _ => rfl)

/-! ## A failing append -/

theorem chunks_take (n : Nat) : ∀ (fuel : Nat) (rest : List ID), n ≤ fuel →
    (chunks fuel rest).take n = chunks n rest := by
  induction n with
  | zero =>
    intro fuel rest _
    simp [chunks]
  | succ k ih =>
    intro fuel rest h
    obtain ⟨f, rfl⟩ : ∃ f, fuel = f + 1 := ⟨fuel - 1, by omega⟩
    by_cases hr : rest = []
    · simp [chunks, hr]
    · simp only [chunks, hr, if_false, List.take_succ_cons]
      rw [ih f _ (by omega)]

theorem chunks_length_exact (k : Nat) : ∀ (rest : List ID), k * 100 < rest.length →
    (chunks (k + 1) rest).length = k + 1 := by
  induction k with
  | zero =>
    intro rest h
    have hr : rest ≠ [] := by
      intro h0
      simp [h0] at h
    simp [chunks, hr]
  | succ j ih =>
    intro rest h
    have hr : rest ≠ [] := by
      intro h0
      simp [h0] at h
    have hlen : j * 100 < (rest.drop batchSize).length := by
      simp only [List.length_drop, batchSize]
      omega
    rw [chunks]
    simp only [hr, if_false, List.length_cons]
    rw [ih _ hlen]

theorem addLoop_fail (trackIDs : List ID) (appendOk : Nat → Bool) (fuel : Nat) :
    ∀ (k i : Nat) (issued : List (List ID)),
      (∀ j, j < k → appendOk (issued.length + j) = true) →
      appendOk (issued.length + k) = false →
      i + k * 100 < trackIDs.length → k < fuel →
      (addLoop trackIDs appendOk fuel i issued).issued =
          issued ++ chunks (k + 1) (trackIDs.drop i) ∧
      (addLoop trackIDs appendOk fuel i issued).err ≠ none := by
  induction fuel with
  | zero =>
    intro k i issued _ _ _ hk
    omega
  | succ n ih =>
    intro k i issued hbefore hfail hlen hk
    have hi : i < trackIDs.length := by omega
    have hne : trackIDs.drop i ≠ [] := by
      intro h0
      have := congrArg List.length h0
      simp only [List.length_drop, List.length_nil] at this
      omega
    have hbatch :
        (trackIDs.drop i).take
            ((if i + batchSize > trackIDs.length then trackIDs.length else i + batchSize) - i) =
          (trackIDs.drop i).take batchSize := by
      by_cases hend : i + batchSize > trackIDs.length
      · rw [if_pos hend, List.take_of_length_le, List.take_of_length_le]
        · simp only [List.length_drop]
          omega
        · simp only [List.length_drop]
          omega
      · rw [if_neg hend]
        congr 1
        omega
    cases k with
    | zero =>
      have hf0 : appendOk issued.length = false := by simpa using hfail
      simp [addLoop, hi, hf0, hbatch, chunks, hne]
    | succ k1 =>
      have ht0 : appendOk issued.length = true := by simpa using hbefore 0 (by omega)
      have hrec := ih k1 (i + batchSize) (issued ++ [(trackIDs.drop i).take batchSize])
        (by
          intro j hj
          have := hbefore (j + 1) (by omega)
          simpa [Nat.add_assoc, Nat.add_comm 1 j] using this)
        (by
          simpa [Nat.add_assoc, Nat.add_comm 1 k1] using hfail)
        (by
          simp only [batchSize]
          omega)
        (by omega)
      rw [addLoop]
      simp only [hi, if_true, ht0, hbatch]
      refine ⟨?_, hrec.2⟩
      rw [hrec.1]
      conv_rhs => rw [chunks]
      simp only [hne, if_false, List.drop_drop, List.append_assoc, List.singleton_append]

/-- C6: for a scan of a registered source (known-set `K`) whose diff step finds a list
`newTracks` with a batch number `k` (so `newTracks` is not empty), if the remote
accepts the batches before `k` and fails on batch `k`, then `scanPlaylist` returns an
error, the batches sent are exactly the batches 0 to `k` of `newTracks` (no batch after
`k` is issued), and the marking is not rolled back: every identifier of `newTracks` is
in the known-set of the source afterwards, so that a following scan with the same
listing passes nothing to `AddTracksToPlaylist` and sends no batch. -/
theorem scanPlaylist_append_failure (m : Monitor) (s : ID) (env : ScanEnv)
    (items : List PlaylistItem) (K : TrackSet) (k : Nat)
    (hf : env.fetch = some items) (hK : m.knownTracks s = some K)
    (hk : k * 100 < (diffLoop (GetTrackIDs items) K).1.length)
    (hbefore : ∀ j, j < k → env.appendOk j = true) (hfail : env.appendOk k = false) :
    (scanPlaylist m s env).err ≠ none ∧
    (scanPlaylist m s env).added = some (diffLoop (GetTrackIDs items) K).1 ∧
    (scanPlaylist m s env).batches =
      (AddTracksToPlaylist (diffLoop (GetTrackIDs items) K).1 (fun _ => true)).issued.take
        (k + 1) ∧
    (scanPlaylist m s env).batches.length = k + 1 ∧
    (∃ K1, (scanPlaylist m s env).monitor.knownTracks s = some K1 ∧
      ∀ t ∈ (diffLoop (GetTrackIDs items) K).1, K1 t = true) ∧
    (∀ env1 : ScanEnv, env1.fetch = some items →
      (scanPlaylist (scanPlaylist m s env).monitor s env1).added = none ∧
      (scanPlaylist (scanPlaylist m s env).monitor s env1).batches = []) := by
  rw [diffLoop_eq] at hk ⊢
  simp only at hk ⊢
  have hnew : newOf K (GetTrackIDs items) ≠ [] := by
    intro h0
    simp [h0] at hk
  have h := scanPlaylist_registered m s env items K hf hK
  simp only [hnew, if_false] at h
  have hrun := addLoop_fail (newOf K (GetTrackIDs items)) env.appendOk
    (newOf K (GetTrackIDs items)).length k 0 []
    (by simpa using hbefore) (by simpa using hfail) (by simpa using hk) (by omega)
  have hall := addLoop_all_ok (newOf K (GetTrackIDs items)) (fun _ => true) (fun _ => rfl)
    (newOf K (GetTrackIDs items)).length 0 []
  have hknown : (scanPlaylist m s env).monitor.knownTracks s =
      some (markKnown (GetTrackIDs items) K) := by
    rw [h.1]
    simp
  have hissued : (scanPlaylist m s env).batches = chunks (k + 1) (newOf K (GetTrackIDs items)) := by
    rw [h.2.2.1]
    simpa [AddTracksToPlaylist] using hrun.1
  refine ⟨?_, h.2.1, ?_, ?_, ⟨_, hknown, ?_⟩, ?_⟩
  · rw [h.2.2.2]
    intro hnone
    apply hrun.2
    simpa [AddTracksToPlaylist] using hnone
  · rw [hissued]
    simp only [AddTracksToPlaylist, hall, List.nil_append, List.drop_zero]
    rw [chunks_take (k + 1) _ _ (by omega)]
  · rw [hissued]
    exact chunks_length_exact k _ hk
  · intro t ht
    have := (mem_newOf K _ t).1 ht
    simp [markKnown_apply, this.1]
  · intro env1 hf1
    have := scanPlaylist_no_new (scanPlaylist m s env).monitor s env1 items _ hf1 hknown
      (by
        intro t ht
        simp [markKnown_apply, ht])
    exact ⟨this.1, this.2.1⟩

set_option maxRecDepth 1000000 in
/-- C6, witness: 101 new tracks, the first batch accepted and the second refused. -/
theorem scanPlaylist_append_failure_witness :
    (scanPlaylist
        { masterID := "M", subIDs := ["S"],
          knownTracks := fun p => if p = "S" then some (fun _ => false) else none }
        "S"
        { fetch := some ((List.range 101).map (fun n => ⟨some (toString n)⟩)),
          appendOk := fun j => decide (j < 1) }).batches.length = 2 :=
  (scanPlaylist_append_failure
    { masterID := "M", subIDs := ["S"],
      knownTracks := fun p => if p = "S" then some (fun _ => false) else none }
    "S"
    { fetch := some ((List.range 101).map (fun n => ⟨some (toString n)⟩)),
      appendOk := fun j => decide (j < 1) }
    ((List.range 101).map (fun n => ⟨some (toString n)⟩)) (fun _ => false) 1 rfl rfl
    (by
      rw [diffLoop_eq]
      decide)
    (fun j hj => by simp [hj]) (by decide)).2.2.2.1

/-! ## Scan cycles -/

theorem scanLoop_log (ids : List ID) : ∀ (m : Monitor) (env : Nat → ScanEnv)
    (log : List ScanRecord),
    scanLoop m ids env log =
      ((scanLoop m ids env []).1, log ++ (scanLoop m ids env []).2) := by
  induction ids with
  | nil =>
    intro m env log
    simp [scanLoop]
  | cons a rest ih =>
    intro m env log
    simp only [scanLoop, List.nil_append]
    rw [ih _ _ (log ++ _), ih _ _ [_]]
    simp

theorem scanLoop_ids (ids : List ID) : ∀ (m : Monitor) (env : Nat → ScanEnv),
    (scanLoop m ids env []).2.map (fun r => r.playlistID) = ids := by
  induction ids with
  | nil =>
    intro m env
    simp [scanLoop]
  | cons a rest ih =>
    intro m env
    simp only [scanLoop, List.nil_append]
    rw [scanLoop_log]
    simp [ih, ScanResult.record]

theorem scanPlaylist_subIDs (m : Monitor) (p : ID) (env : ScanEnv) :
    (scanPlaylist m p env).monitor.subIDs = m.subIDs ∧
    (scanPlaylist m p env).monitor.masterID = m.masterID := by
  cases hf : env.fetch with
  | none => simp [scanPlaylist_fetch_failed m p env hf]
  | some items =>
    cases hK : m.knownTracks p with
    | none => simp [scanPlaylist_not_registered m p env items hf hK]
    | some K => simp [(scanPlaylist_registered m p env items K hf hK).1]

theorem scanPlaylist_knownTracks_other (m : Monitor) (p s : ID) (env : ScanEnv) (hps : p ≠ s) :
    (scanPlaylist m p env).monitor.knownTracks s = m.knownTracks s := by
  cases hf : env.fetch with
  | none => simp [scanPlaylist_fetch_failed m p env hf]
  | some items =>
    cases hK : m.knownTracks p with
    | none => simp [scanPlaylist_not_registered m p env items hf hK]
    | some K =>
      rw [(scanPlaylist_registered m p env items K hf hK).1]
      exact Function.update_noteq (Ne.symm hps) _ _

theorem scanPlaylist_no_entry (m : Monitor) (s : ID) (env : ScanEnv)
    (hK : m.knownTracks s = none) :
    (scanPlaylist m s env).err ≠ none ∧ (scanPlaylist m s env).added = none ∧
    (scanPlaylist m s env).batches = [] ∧ (scanPlaylist m s env).monitor = m := by
  cases hf : env.fetch with
  | none => simp [scanPlaylist_fetch_failed m s env hf]
  | some items => simp [scanPlaylist_not_registered m s env items hf hK]

theorem scanPlaylist_keeps_unregistered (m : Monitor) (s p : ID) (env : ScanEnv)
    (hK : m.knownTracks s = none) :
    (scanPlaylist m p env).monitor.knownTracks s = none := by
  by_cases hps : p = s
  · subst hps
    rw [(scanPlaylist_no_entry m p env hK).2.2.2]
    exact hK
  · rw [scanPlaylist_knownTracks_other m p s env hps]
    exact hK

theorem scanLoop_unregistered (s : ID) (ids : List ID) :
    ∀ (m : Monitor) (env : Nat → ScanEnv) (log : List ScanRecord),
      m.knownTracks s = none →
      (∀ r ∈ log, r.playlistID = s → r.err ≠ none ∧ r.added = none ∧ r.batches = []) →
      (scanLoop m ids env log).1.knownTracks s = none ∧
      ∀ r ∈ (scanLoop m ids env log).2, r.playlistID = s →
        r.err ≠ none ∧ r.added = none ∧ r.batches = [] := by
  induction ids with
  | nil =>
    intro m env log hK hlog
    exact ⟨hK, hlog⟩
  | cons a rest ih =>
    intro m env log hK hlog
    simp only [scanLoop]
    apply ih
    · exact scanPlaylist_keeps_unregistered m s a (env 0) hK
    · intro r hr hrs
      rcases List.mem_append.1 hr with h1 | h1
      · exact hlog r h1 hrs
      · have hreq : r = (scanPlaylist m a (env 0)).record a := by simpa using h1
        subst hreq
        have has : a = s := hrs
        subst has
        have h := scanPlaylist_no_entry m a (env 0) hK
        exact ⟨h.1, h.2.1, h.2.2.1⟩

theorem runCycles_unregistered (s : ID) (cycles : List (Nat → ScanEnv)) :
    ∀ (m : Monitor) (log : List ScanRecord),
      m.knownTracks s = none →
      (∀ r ∈ log, r.playlistID = s → r.err ≠ none ∧ r.added = none ∧ r.batches = []) →
      (runCycles m cycles log).1.knownTracks s = none ∧
      ∀ r ∈ (runCycles m cycles log).2, r.playlistID = s →
        r.err ≠ none ∧ r.added = none ∧ r.batches = [] := by
  induction cycles with
  | nil =>
    intro m log hK hlog
    exact ⟨hK, hlog⟩
  | cons env rest ih =>
    intro m log hK hlog
    simp only [runCycles, scanAllPlaylists]
    have h := scanLoop_unregistered s m.subIDs m env log hK hlog
    rw [scanLoop_log] at h
    exact ih _ _ h.1 h.2

/-- C8: for a source identifier `s` with no entry in the registry, every call of
`scanPlaylist` on `s` returns an error, passes nothing to `AddTracksToPlaylist`, sends
no batch and leaves the monitor as it is; over any number of scan cycles the registry
keeps no entry for `s` and every scan of `s` fails in the same way.  A source whose
listing fetch fails during `Initialize` of a monitor that has no entry for it is in
this situation for the whole run of `Start`. -/
theorem scanPlaylist_unregistered (m : Monitor) (s : ID) (hK : m.knownTracks s = none) :
    (∀ env : ScanEnv,
      (scanPlaylist m s env).err ≠ none ∧ (scanPlaylist m s env).added = none ∧
      (scanPlaylist m s env).batches = [] ∧ (scanPlaylist m s env).monitor = m) ∧
    (∀ cycles : List (Nat → ScanEnv),
      (runCycles m cycles []).1.knownTracks s = none ∧
      ∀ r ∈ (runCycles m cycles []).2, r.playlistID = s →
        r.err ≠ none ∧ r.added = none ∧ r.batches = []) ∧
    (∀ (masterItems : List PlaylistItem) (subFetch : Nat → Option (List PlaylistItem))
        (cycles : List (Nat → ScanEnv)),
      (∀ j, m.subIDs[j]? = some s → subFetch j = none) →
      ∃ r, Start m (some masterItems) subFetch cycles = .ok r ∧
        r.1.knownTracks s = none ∧
        ∀ rec ∈ r.2, rec.playlistID = s →
          rec.err ≠ none ∧ rec.added = none ∧ rec.batches = []) := by
  refine ⟨fun env => scanPlaylist_no_entry m s env hK, ?_, ?_⟩
  · intro cycles
    exact runCycles_unregistered s cycles m [] hK (by simp)
  · intro masterItems subFetch cycles hfail
    refine ⟨_, rfl, ?_⟩
    apply runCycles_unregistered s cycles _ []
    · show initLoop _ m.subIDs subFetch m.knownTracks s = none
      rw [initLoop_all_fail _ s m.subIDs subFetch m.knownTracks hfail]
      exact hK
    · simp

/-- C8, witness: a fresh monitor with the sources A and S; the fetch of S fails
during `Initialize`; in the cycle that follows the scan of S fails and appends
nothing. -/
theorem scanPlaylist_unregistered_witness :
    ∃ r, Start { masterID := "M", subIDs := ["A", "S"], knownTracks := emptyRegistry }
        (some []) (fun j => if j = 0 then some [] else none)
        [fun _ => { fetch := some [⟨some "t"⟩], appendOk := fun _ => true }] = .ok r ∧
      r.1.knownTracks "S" = none ∧
      ∀ rec ∈ r.2, rec.playlistID = "S" →
        rec.err ≠ none ∧ rec.added = none ∧ rec.batches = [] :=
  (scanPlaylist_unregistered
    { masterID := "M", subIDs := ["A", "S"], knownTracks := emptyRegistry } "S" rfl).2.2
    [] (fun j => if j = 0 then some [] else none)
    [fun _ => { fetch := some [⟨some "t"⟩], appendOk := fun _ => true }]
    (by
      intro j hj
      match j, hj with
      | 1, _ => rfl
      | 0, h => exact absurd h (by decide)
      | n + 2, h => simp at h)

/-! ## Isolation of a failing source -/

theorem scanPlaylist_with_subIDs (m : Monitor) (l : List ID) (p : ID) (env : ScanEnv) :
    (scanPlaylist { m with subIDs := l } p env).monitor =
        { (scanPlaylist m p env).monitor with subIDs := l } ∧
    (scanPlaylist { m with subIDs := l } p env).record p = (scanPlaylist m p env).record p := by
  cases hf : env.fetch with
  | none => simp [scanPlaylist, hf, ScanResult.record]
  | some items =>
    cases hK : m.knownTracks p with
    | none => simp [scanPlaylist, hf, hK, ScanResult.record]
    | some K =>
      by_cases hnew : 0 < (diffLoop (GetTrackIDs items) K).1.length
      · simp [scanPlaylist, hf, hK, hnew, ScanResult.record]
      · simp [scanPlaylist, hf, hK, hnew, ScanResult.record]

theorem scanLoop_with_subIDs (l : List ID) (ids : List ID) :
    ∀ (m : Monitor) (env : Nat → ScanEnv) (log : List ScanRecord),
      scanLoop { m with subIDs := l } ids env log =
        ({ (scanLoop m ids env log).1 with subIDs := l }, (scanLoop m ids env log).2) := by
  induction ids with
  | nil =>
    intro m env log
    rfl
  | cons a rest ih =>
    intro m env log
    simp only [scanLoop]
    rw [(scanPlaylist_with_subIDs m l a (env 0)).1, (scanPlaylist_with_subIDs m l a (env 0)).2]
    exact ih _ _ _

theorem scanLoop_knownTracks_not_mem (B : ID) (ids : List ID) :
    ∀ (m : Monitor) (env : Nat → ScanEnv) (log : List ScanRecord), B ∉ ids →
      (scanLoop m ids env log).1.knownTracks B = m.knownTracks B := by
  induction ids with
  | nil =>
    intro m env log _
    rfl
  | cons a rest ih =>
    intro m env log hB
    simp only [scanLoop]
    rw [ih _ _ _ (fun h => hB (List.mem_cons_of_mem _ h))]
    exact scanPlaylist_knownTracks_other m a B (env 0)
      (fun h => hB (by simp [h]))

theorem scanLoop_drop_failing (B : ID) (ids : List ID) :
    ∀ (m : Monitor) (env : Nat → ScanEnv),
      (∀ j, ids[j]? = some B → (env j).fetch = none) →
      (scanLoop m (ids.filter (fun id => id != B)) (dropSource B ids env) []).1 =
          (scanLoop m ids env []).1 ∧
      (scanLoop m (ids.filter (fun id => id != B)) (dropSource B ids env) []).2 =
          (scanLoop m ids env []).2.filter (fun r => r.playlistID != B) ∧
      ∀ r ∈ (scanLoop m ids env []).2, r.playlistID = B →
        r.err ≠ none ∧ r.added = none ∧ r.batches = [] := by
  induction ids with
  | nil =>
    intro m env _
    simp [scanLoop, dropSource]
  | cons a rest ih =>
    intro m env h
    have hrest : ∀ j, rest[j]? = some B → (shift env j).fetch = none := by
      intro j hj
      exact h (j + 1) (by simpa using hj)
    by_cases haB : a = B
    · subst haB
      have hf : (env 0).fetch = none := h 0 (by simp)
      have hscan := scanPlaylist_fetch_failed m a (env 0) hf
      have hIH := ih m (shift env) hrest
      simp only [scanLoop, List.nil_append]
      rw [scanLoop_log _ _ _ [_]]
      simp only [hscan, List.filter_cons, bne_self_eq_false, Bool.false_eq_true, if_false,
        dropSource, if_true, ScanResult.record, List.singleton_append]
      refine ⟨hIH.1, hIH.2.1, ?_⟩
      intro r hr hrB
      rcases List.mem_cons.1 hr with h1 | h1
      · subst h1
        simp
      · exact hIH.2.2 r h1 hrB
    · have hIH := ih (scanPlaylist m a (env 0)).monitor (shift env) hrest
      have hne : (a != B) = true := by simpa using haB
      have hdrop : dropSource B (a :: rest) env 0 = env 0 := by
        simp [dropSource, haB]
      have hshift : shift (dropSource B (a :: rest) env) = dropSource B rest (shift env) := by
        funext j
        simp [shift, dropSource, haB]
      simp only [scanLoop, List.nil_append, List.filter_cons, hne, if_true, hdrop, hshift]
      rw [scanLoop_log _ _ _ [_], scanLoop_log _ (scanPlaylist m a (env 0)).monitor _ [_]]
      have hrec : ((scanPlaylist m a (env 0)).record a).playlistID != B := by
        simpa [ScanResult.record] using haB
      refine ⟨hIH.1, ?_, ?_⟩
      · simp only [List.singleton_append, List.filter_cons, hrec, if_true, hIH.2.1]
      · intro r hr hrB
        rcases List.mem_append.1 hr with h1 | h1
        · have hreq : r = (scanPlaylist m a (env 0)).record a := by simpa using h1
          subst hreq
          exact absurd hrB haB
        · exact hIH.2.2 r h1 hrB

/-- C7: `scanAllPlaylists` scans each source exactly once in declaration order and
returns no error, whatever fetches or appends fail.  When the fetch of a source `B`
fails (at the position where `B` is declared, at each of them when `B` is declared
more than once), the registry is unchanged for `B`, the scan of `B` appends nothing, and every
other source is processed exactly as in a cycle in which `B` is not among the sources
and the remote gives the other sources the same answers: the registry at the end is
the same and the scans of the other sources are the same records (same new tracks,
same batches, same errors) in the same order. -/
theorem scanAllPlaylists_isolation (m : Monitor) (env : Nat → ScanEnv) :
    (scanAllPlaylists m env).err = none ∧
    (scanAllPlaylists m env).scans.map (fun r => r.playlistID) = m.subIDs ∧
    ∀ B : ID, (∀ j, m.subIDs[j]? = some B → (env j).fetch = none) →
      (scanAllPlaylists m env).monitor.knownTracks B = m.knownTracks B ∧
      (∀ r ∈ (scanAllPlaylists m env).scans, r.playlistID = B →
        r.err ≠ none ∧ r.added = none ∧ r.batches = []) ∧
      (scanAllPlaylists { m with subIDs := m.subIDs.filter (fun id => id != B) }
          (dropSource B m.subIDs env)).monitor.knownTracks =
        (scanAllPlaylists m env).monitor.knownTracks ∧
      (scanAllPlaylists { m with subIDs := m.subIDs.filter (fun id => id != B) }
          (dropSource B m.subIDs env)).scans =
        (scanAllPlaylists m env).scans.filter (fun r => r.playlistID != B) := by
  refine ⟨rfl, scanLoop_ids m.subIDs m env, ?_⟩
  intro B hfail
  have h := scanLoop_drop_failing B m.subIDs m env hfail
  have hnot : B ∉ m.subIDs.filter (fun id => id != B) := by
    simp [List.mem_filter]
  have hkeep := scanLoop_knownTracks_not_mem B _ m (dropSource B m.subIDs env) [] hnot
  simp only [scanAllPlaylists, scanLoop_with_subIDs]
  refine ⟨?_, h.2.2, ?_, h.2.1⟩
  · rw [← h.1]
    exact hkeep
  · rw [h.1]

/-- C7, witness: the sources A, B, C; the fetch of B fails; A and C each have one
new track: both are appended, the registry of B is unchanged, and the cycle over A
and C alone gives the same scans. -/
theorem scanAllPlaylists_isolation_witness :
    (scanAllPlaylists
        { masterID := "M", subIDs := ["A", "B", "C"], knownTracks := fun _ => some (fun _ => false) }
        (fun j => { fetch := if j = 1 then none else some [⟨some "t"⟩],
                    appendOk := fun _ => true })).scans.filter
        (fun r => r.playlistID != "B") =
      [{ playlistID := "A", err := none, added := some ["t"], batches := [["t"]] },
       { playlistID := "C", err := none, added := some ["t"], batches := [["t"]] }] := by
  have h := ((scanAllPlaylists_isolation
    { masterID := "M", subIDs := ["A", "B", "C"], knownTracks := fun _ => some (fun _ => false) }
    (fun j => { fetch := if j = 1 then none else some [⟨some "t"⟩],
                appendOk := fun _ => true })).2.2 "B"
    (by
      intro j hj
      match j, hj with
      | 1, _ => rfl
      | 0, h => exact absurd h (by decide)
      | 2, h => exact absurd h (by decide)
      | n + 3, h => simp at h)).2.2.2
  rw [← h]
  decide

/-! ## No duplicate per source over a run -/

theorem passedFor_append (s : ID) (log : List ScanRecord) (r : ScanRecord) :
    passedFor s (log ++ [r]) =
      passedFor s log ++ (if r.playlistID = s then r.passed else []) := by
  by_cases h : r.playlistID = s
  · simp [passedFor, List.filter_append, h]
  · simp [passedFor, List.filter_append, h]

theorem passedAll_append (log : List ScanRecord) (r : ScanRecord) :
    passedAll (log ++ [r]) = passedAll log ++ r.passed := by
  simp [passedAll]

theorem scanPlaylist_cases (m : Monitor) (p : ID) (env : ScanEnv) :
    ((scanPlaylist m p env).monitor = m ∧ ((scanPlaylist m p env).record p).passed = []) ∨
    ∃ K current, m.knownTracks p = some K ∧
      (scanPlaylist m p env).monitor.knownTracks =
        Function.update m.knownTracks p (some (markKnown current K)) ∧
      ((scanPlaylist m p env).record p).passed = newOf K current := by
  cases hf : env.fetch with
  | none =>
    left
    simp [scanPlaylist_fetch_failed m p env hf, ScanResult.record, ScanRecord.passed]
  | some items =>
    cases hK : m.knownTracks p with
    | none =>
      left
      simp [scanPlaylist_not_registered m p env items hf hK, ScanResult.record,
        ScanRecord.passed]
    | some K =>
      right
      refine ⟨K, GetTrackIDs items, rfl, ?_, scanPlaylist_passed_registered m p env items K hf hK⟩
      rw [(scanPlaylist_registered m p env items K hf hK).1]

theorem RunInv_step (master : List ID) (m : Monitor) (log : List ScanRecord) (p : ID)
    (env : ScanEnv) (h : RunInv master m log) :
    RunInv master (scanPlaylist m p env).monitor (log ++ [(scanPlaylist m p env).record p]) := by
  obtain ⟨h1, h2, h3, h4⟩ := h
  have hid : ((scanPlaylist m p env).record p).playlistID = p := rfl
  rcases scanPlaylist_cases m p env with ⟨hm, hpassed⟩ | ⟨K, current, hK, hm, hpassed⟩
  · rw [hm]
    refine ⟨h1, ?_, ?_, ?_⟩
    · intro s t ht
      rw [passedFor_append, hpassed] at ht
      exact h2 s t (by simpa using ht)
    · intro s
      rw [passedFor_append, hpassed]
      simpa using h3 s
    · intro t ht
      rw [passedAll_append, hpassed]
      simpa using h4 t ht
  · have hknownOld : ∀ t, t ∈ passedFor p log → K t = true := by
      intro t ht
      obtain ⟨K0, hK0, hK0t⟩ := h2 p t ht
      rw [hK] at hK0
      cases hK0
      exact hK0t
    refine ⟨?_, ?_, ?_, ?_⟩
    · intro s K1 hs t ht
      rw [hm] at hs
      by_cases hsp : s = p
      · subst hsp
        rw [Function.update_same] at hs
        cases hs
        simp [markKnown_apply, h1 s K hK t ht]
      · rw [Function.update_noteq hsp] at hs
        exact h1 s K1 hs t ht
    · intro s t ht
      rw [passedFor_append, hid, hpassed] at ht
      rw [hm]
      by_cases hsp : p = s
      · subst hsp
        refine ⟨_, Function.update_same _ _ _, ?_⟩
        simp only [if_true] at ht
        rcases List.mem_append.1 ht with h0 | h0
        · simp [markKnown_apply, hknownOld t h0]
        · simp [markKnown_apply, ((mem_newOf K current t).1 h0).1]
      · simp only [hsp, if_false, List.append_nil] at ht
        obtain ⟨K0, hK0, hK0t⟩ := h2 s t ht
        exact ⟨K0, by rw [Function.update_noteq (Ne.symm hsp)]; exact hK0, hK0t⟩
    · intro s
      rw [passedFor_append, hid, hpassed]
      by_cases hsp : p = s
      · subst hsp
        simp only [if_true]
        refine List.Nodup.append (h3 p) (newOf_nodup K current) ?_
        intro t hold hnew
        have hfalse := ((mem_newOf K current t).1 hnew).2
        rw [hknownOld t hold] at hfalse
        exact Bool.noConfusion hfalse
      · simpa [hsp] using h3 s
    · intro t ht
      rw [passedAll_append, hpassed]
      intro hmem
      rcases List.mem_append.1 hmem with h0 | h0
      · exact h4 t ht h0
      · have hfalse := ((mem_newOf K current t).1 h0).2
        rw [h1 p K hK t ht] at hfalse
        exact Bool.noConfusion hfalse

theorem RunInv_scanLoop (master : List ID) (ids : List ID) :
    ∀ (m : Monitor) (env : Nat → ScanEnv) (log : List ScanRecord), RunInv master m log →
      RunInv master (scanLoop m ids env log).1 (scanLoop m ids env log).2 := by
  induction ids with
  | nil =>
    intro m env log h
    exact h
  | cons a rest ih =>
    intro m env log h
    simp only [scanLoop]
    exact ih _ _ _ (RunInv_step master m log a (env 0) h)

theorem RunInv_runCycles (master : List ID) (cycles : List (Nat → ScanEnv)) :
    ∀ (m : Monitor) (log : List ScanRecord), RunInv master m log →
      RunInv master (runCycles m cycles log).1 (runCycles m cycles log).2 := by
  induction cycles with
  | nil =>
    intro m log h
    exact h
  | cons env rest ih =>
    intro m log h
    simp only [runCycles, scanAllPlaylists]
    have hloop := RunInv_scanLoop master m.subIDs m env log h
    rw [scanLoop_log] at hloop
    exact ih _ _ hloop

/-- The monitor returned by `NewMonitor` has an empty registry. -/
theorem NewMonitor_fresh (urlParse : String → Except String URL) (cfg : Config) (m : Monitor)
    (h : NewMonitor urlParse cfg = .ok m) : ∀ s, m.knownTracks s = none := by
  intro s
  unfold NewMonitor at h
  cases hm : ExtractPlaylistID urlParse cfg.MasterPlaylistURL with
  | error e =>
    rw [hm] at h
    cases h
  | ok masterID =>
    rw [hm] at h
    cases hr : resolveSubs urlParse cfg.SubPlaylistURLs [] with
    | error e =>
      rw [hr] at h
      cases h
    | ok subIDs =>
      rw [hr] at h
      cases h
      rfl

/-- C1 (amended): for every run of `Start` on a monitor with an empty registry, as
`NewMonitor` returns it (`Initialize` followed by
any number of scan cycles, over any list of sources and any remote answers), every
track identifier is passed to `AddTracksToPlaylist` at most once by the scans of each
source (the same identifier can be passed again by the scans of another source), and
no identifier that was in the master playlist at initialization is ever passed to it. -/
theorem Start_no_duplicate_per_source (m : Monitor) (masterItems : List PlaylistItem)
    (subFetch : Nat → Option (List PlaylistItem)) (cycles : List (Nat → ScanEnv))
    (hfresh : ∀ s, m.knownTracks s = none) :
    ∃ r, Start m (some masterItems) subFetch cycles = .ok r ∧
      (∀ s, (passedFor s r.2).Nodup) ∧
      (∀ t ∈ GetTrackIDs masterItems, t ∉ passedAll r.2) := by
  refine ⟨_, rfl, ?_⟩
  have hinit : RunInv (GetTrackIDs masterItems)
      { m with knownTracks := initLoop (GetTrackIDs masterItems) m.subIDs subFetch m.knownTracks }
      [] := by
    refine ⟨?_, ?_, ?_, ?_⟩
    · apply initLoop_master_known
      intro s K hs
      rw [hfresh s] at hs
      cases hs
    · intro s t ht
      simp [passedFor] at ht
    · intro s
      simp [passedFor]
    · intro t _
      simp [passedAll]
  have h := RunInv_runCycles (GetTrackIDs masterItems) cycles _ [] hinit
  exact ⟨h.2.2.1, h.2.2.2⟩

/-- C1, witness: a fresh monitor with the sources A and B, master listing t0; both
sources start empty and then hold t0 and t1, in two cycles. -/
theorem Start_no_duplicate_per_source_witness :
    ∃ r, Start { masterID := "M", subIDs := ["A", "B"], knownTracks := emptyRegistry }
        (some [⟨some "t0"⟩]) (fun _ => some [])
        [fun _ => { fetch := some [⟨some "t0"⟩, ⟨some "t1"⟩], appendOk := fun _ => true },
         fun _ => { fetch := some [⟨some "t0"⟩, ⟨some "t1"⟩], appendOk := fun _ => true }] =
          .ok r ∧
      (∀ s, (passedFor s r.2).Nodup) ∧
      (∀ t ∈ GetTrackIDs [⟨some "t0"⟩], t ∉ passedAll r.2) :=
  Start_no_duplicate_per_source
    { masterID := "M", subIDs := ["A", "B"], knownTracks := emptyRegistry }
    [⟨some "t0"⟩] (fun _ => some [])
    [fun _ => { fetch := some [⟨some "t0"⟩, ⟨some "t1"⟩], appendOk := fun _ => true },
     fun _ => { fetch := some [⟨some "t0"⟩, ⟨some "t1"⟩], appendOk := fun _ => true }]
    (fun _ => rfl)

/-- C1, counterexample: a fresh monitor with the sources A and B and an empty master;
both sources are empty at initialization; in the first cycle both hold the track t.
The scan of A and the scan of B each pass t to `AddTracksToPlaylist`, and the remote
receives the batch with t twice. -/
theorem Start_duplicate_across_sources :
    (Start { masterID := "M", subIDs := ["A", "B"], knownTracks := emptyRegistry }
        (some []) (fun _ => some [])
        [fun _ => { fetch := some [⟨some "t"⟩], appendOk := fun _ => true }]).toOption.map
        (fun r => (r.2, passedAll r.2)) =
      some ([{ playlistID := "A", err := none, added := some ["t"], batches := [["t"]] },
             { playlistID := "B", err := none, added := some ["t"], batches := [["t"]] }],
            ["t", "t"]) := by
  decide

end PlaylistSyncer
